import Mathlib

/-!
# Verification of the zzs-data-server fetch-parse-merge-cache pipeline

A shallow embedding, in Lean 4, of the core of the `zzs-data-server`
repository: the doctor/institution merge transform
(`doctorsMergedSchema`, `mergeDoctorsAndInstitutions`), the TTL + size
bounded cache (`setCacheWithTTL` / `getCacheWithTTL`), the delimited-text
parser (`parseRawContent`), the derived record identifier
(`generateDoctorId`), and the cache-hit response path of the doctors
route.  JavaScript runtime primitives the code relies on (`Number(...)`
conversion, string truthiness, `String.prototype.split`, JS `Map`
insertion-order semantics, SHA-256) are embedded explicitly.

Numbers produced by `Number(...)` are modelled as `JsNum` (a rational or
NaN); machine words inside SHA-256 are `Nat` taken modulo `2 ^ 32`.
-/

set_option autoImplicit false

namespace ZzsData

/-! ## JavaScript string and number primitives -/

/-- Characters treated as whitespace by `String.prototype.trim` (the
subset relevant to this data: space, tab, CR, LF). -/
def jsIsWs (c : Char) : Bool :=
  c = ' ' || c = '\t' || c = '\n' || c = '\r'

/-- JS `String.prototype.trim`. -/
def jsTrim (s : String) : String :=
  ⟨((s.toList.dropWhile jsIsWs).reverse.dropWhile jsIsWs).reverse⟩

/-- Split a character list at every occurrence of `c` (JS
`String.prototype.split` with a single-character separator). -/
def splitCharList (c : Char) : List Char → List (List Char)
  | [] => [[]]
  | x :: xs =>
    let rest := splitCharList c xs
    if x = c then [] :: rest
    else
      match rest with
      | [] => [[x]]
      | r :: rs => (x :: r) :: rs

/-- JS `s.split(c)` for a one-character separator `c`. -/
def jsSplit (c : Char) (s : String) : List String :=
  (splitCharList c s.toList).map fun l => ⟨l⟩

/-- Truthiness of a nullable JS string: `null` and `''` are falsy,
every other string is truthy. -/
def strTruthy : Option String → Bool
  | none => false
  | some s => s ≠ ""

/-- Result of JS `Number(...)`: either an actual numeric value
(modelled as a rational) or `NaN`. -/
inductive JsNum where
  | nan
  | num (q : ℚ)
deriving DecidableEq, Repr

/-- The numeric value of a list of decimal digit characters
(the empty list counts as 0, as in JS where `Number("46.")` is `46`). -/
def digitsVal : List Char → Nat
  | [] => 0
  | c :: cs => (c.toNat - '0'.toNat) * 10 ^ cs.length + digitsVal cs

/-- Parse an unsigned decimal literal (`"46"`, `"46.05"`, `".5"`,
`"46."`); `none` when the character list is not such a literal. -/
def parseUnsignedDec (cs : List Char) : Option ℚ :=
  let ip := cs.takeWhile Char.isDigit
  let rest := cs.dropWhile Char.isDigit
  match rest with
  | [] => if ip.isEmpty then none else some (digitsVal ip)
  | '.' :: fp =>
    if fp.all Char.isDigit && !(ip.isEmpty && fp.isEmpty) then
      some ((digitsVal ip : ℚ) + (digitsVal fp : ℚ) / (10 ^ fp.length : ℚ))
    else none
  | _ => none

/-- Parse a signed decimal literal. -/
def parseDec (cs : List Char) : Option ℚ :=
  match cs with
  | '-' :: rest => (parseUnsignedDec rest).map Neg.neg
  | _ => parseUnsignedDec cs

/-- JS `Number(x)` for `x : string | null`: `Number(null) = 0`,
`Number('') = 0` (after trimming), a decimal literal evaluates to its
value, anything else is `NaN`. -/
def jsNumber : Option String → JsNum
  | none => .num 0
  | some s =>
    let t := jsTrim s
    if t = "" then .num 0
    else
      match parseDec t.toList with
      | some q => .num q
      | none => .nan

/-! ## SHA-256 (the `node:crypto` digest used by `generateDoctorId`)

Words are `Nat` reduced modulo `2 ^ 32`. -/

namespace Sha256

def wordMod : Nat := 4294967296

def rotr (n x : Nat) : Nat := ((x >>> n) ||| (x <<< (32 - n))) % wordMod

def bigS0 (x : Nat) : Nat := rotr 2 x ^^^ rotr 13 x ^^^ rotr 22 x

def bigS1 (x : Nat) : Nat := rotr 6 x ^^^ rotr 11 x ^^^ rotr 25 x

def smallS0 (x : Nat) : Nat := rotr 7 x ^^^ rotr 18 x ^^^ (x >>> 3)

def smallS1 (x : Nat) : Nat := rotr 17 x ^^^ rotr 19 x ^^^ (x >>> 10)

def ch (x y z : Nat) : Nat := (x &&& y) ^^^ ((x ^^^ 4294967295) &&& z)

def maj (x y z : Nat) : Nat := (x &&& y) ^^^ (x &&& z) ^^^ (y &&& z)

def roundK : List Nat :=
  [1116352408, 1899447441, 3049323471, 3921009573, 961987163,
   1508970993, 2453635748, 2870763221, 3624381080, 310598401,
   607225278, 1426881987, 1925078388, 2162078206, 2614888103,
   3248222580, 3835390401, 4022224774, 264347078, 604807628,
   770255983, 1249150122, 1555081692, 1996064986, 2554220882,
   2821834349, 2952996808, 3210313671, 3336571891, 3584528711,
   113926993, 338241895, 666307205, 773529912, 1294757372,
   1396182291, 1695183700, 1986661051, 2177026350, 2456956037,
   2730485921, 2820302411, 3259730800, 3345764771, 3516065817,
   3600352804, 4094571909, 275423344, 430227734, 506948616,
   659060556, 883997877, 958139571, 1322822218, 1537002063,
   1747873779, 1955562222, 2024104815, 2227730452, 2361852424,
   2428436474, 2756734187, 3204031479, 3329325298]

def initH : List Nat :=
  [1779033703, 3144134277, 1013904242, 2773480762,
   1359893119, 2600822924, 528734635, 1541459225]

/-- UTF-8 encoding of one character as a list of byte values. -/
def utf8Bytes (c : Char) : List Nat :=
  let n := c.toNat
  if n < 0x80 then [n]
  else if n < 0x800 then
    [0xC0 ||| (n >>> 6), 0x80 ||| (n &&& 0x3F)]
  else if n < 0x10000 then
    [0xE0 ||| (n >>> 12), 0x80 ||| ((n >>> 6) &&& 0x3F), 0x80 ||| (n &&& 0x3F)]
  else
    [0xF0 ||| (n >>> 18), 0x80 ||| ((n >>> 12) &&& 0x3F),
     0x80 ||| ((n >>> 6) &&& 0x3F), 0x80 ||| (n &&& 0x3F)]

def strBytes (s : String) : List Nat := (s.toList.map utf8Bytes).flatten

/-- `count` bytes of `n`, big-endian. -/
def natToBytesBE (count n : Nat) : List Nat :=
  (List.range count).map fun i => (n >>> ((count - 1 - i) * 8)) % 256

/-- SHA-256 message padding: `0x80`, zeros, then the 64-bit bit length. -/
def padMessage (msg : List Nat) : List Nat :=
  let padZeros := (119 - msg.length % 64) % 64
  msg ++ [0x80] ++ List.replicate padZeros 0 ++ natToBytesBE 8 (msg.length * 8)

/-- Group bytes into 32-bit big-endian words. -/
def bytesToWords : List Nat → List Nat
  | b0 :: b1 :: b2 :: b3 :: rest =>
    (b0 * 16777216 + b1 * 65536 + b2 * 256 + b3) :: bytesToWords rest
  | _ => []

/-- Split into 64-byte blocks (`fuel` bounds the recursion). -/
def chunksAux : Nat → List Nat → List (List Nat)
  | 0, _ => []
  | _, [] => []
  | n + 1, l => l.take 64 :: chunksAux n (l.drop 64)

def chunks64 (l : List Nat) : List (List Nat) := chunksAux l.length l

/-- Extend the 16 block words to the 64-entry message schedule. -/
def extendW : Nat → List Nat → List Nat
  | 0, w => w
  | n + 1, w =>
    let i := w.length
    let next := (smallS1 (w.getD (i - 2) 0) + w.getD (i - 7) 0 +
                 smallS0 (w.getD (i - 15) 0) + w.getD (i - 16) 0) % wordMod
    extendW n (w ++ [next])

/-- One compression round on the 8-word working state. -/
def round (st : List Nat) (k w : Nat) : List Nat :=
  match st with
  | [a, b, c, d, e, f, g, h] =>
    let t1 := (h + bigS1 e + ch e f g + k + w) % wordMod
    let t2 := (bigS0 a + maj a b c) % wordMod
    [(t1 + t2) % wordMod, a, b, c, (d + t1) % wordMod, e, f, g]
  | _ => st

/-- Compress one 64-byte block into the hash state. -/
def compress (h : List Nat) (block : List Nat) : List Nat :=
  let w := extendW 48 (bytesToWords block)
  let st := (roundK.zip w).foldl (fun s kw => round s kw.1 kw.2) h
  (h.zip st).map fun p => (p.1 + p.2) % wordMod

def hexDigit (n : Nat) : Char :=
  if n < 10 then Char.ofNat ('0'.toNat + n)
  else Char.ofNat ('a'.toNat + (n - 10))

/-- `count` hex digits of `n`, most significant first. -/
def toHex (count n : Nat) : List Char :=
  (List.range count).map fun i => hexDigit ((n >>> ((count - 1 - i) * 4)) % 16)

/-- SHA-256 of a string, as a lowercase hex string
(`crypto.createHash('sha256').update(s).digest('hex')`). -/
def hexDigest (s : String) : String :=
  let final := (chunks64 (padMessage (strBytes s))).foldl compress initH
  ⟨(final.map (toHex 8)).flatten⟩

end Sha256

/-! ## Raw records (the outputs of `doctorsRawSchema` / `institutionsRawSchema`)

Fields typed `z.string().nullish().default(null)` become `Option String`
(after parsing only `null` or a string remain); `z.coerce.number()`
fields are numbers, modelled as `ℚ`; `z.date().nullish()` is an
`Option Nat` epoch value. -/

structure DoctorRaw where
  accepts : String
  availability : ℚ
  doctor : String
  id_inst : String
  load : ℚ
  type : String
  email : String
  phone : String
  website : String
  accepts_overide : Option String
  availability_overide : Option String
  date_overide : Option Nat
  note_overide : Option String
  address : String
  city : String
  municipality : String
  municipalityPart : String
  post : String
  lat : Option String
  lon : Option String
deriving DecidableEq, Repr

structure InstitutionRaw where
  id_inst : String
  zzzsSt : String
  name : String
  unit : String
  phone : String
  website : String
  address : String
  city : String
  municipality : String
  municipalityPart : String
  post : String
  lat : Option String
  lon : Option String
deriving DecidableEq, Repr

/-- The all-empty placeholder substituted when a doctor's `id_inst` has
no entry in the institutions lookup (`mergeHelper.ts`).  Its `lat`/`lon`
are the empty string (which `institutionsRawSchema.parse` keeps as a
string: `.default(null)` only replaces `undefined`). -/
def unknownInstitution : InstitutionRaw :=
  { id_inst := "", zzzsSt := "", name := "", unit := "", phone := "",
    website := "", address := "", city := "", municipality := "",
    municipalityPart := "", post := "", lat := some "", lon := some "" }

/-! ## The merged record (`doctorsMergedSchema` transform output) -/

/-- `availability` in the merged `data` block is
`doctor.availability_overide ?? doctor.availability`, so its type is
string-or-number. -/
inductive StrOrNum where
  | str (s : String)
  | num (q : ℚ)
deriving DecidableEq, Repr

structure MergedInstitution where
  id : String
  name : String
  unit : String
  zzzsSt : String
deriving DecidableEq, Repr

structure MergedData where
  accepts : String
  availability : StrOrNum
  load : ℚ
  note : Option String
deriving DecidableEq, Repr

structure MergedLocation where
  lat : JsNum
  lon : JsNum
deriving DecidableEq, Repr

structure MergedAddress where
  street : String
  city : String
  municipality : String
  municipalityPart : String
  postalCode : String
  postalName : String
deriving DecidableEq, Repr

structure MergedContact where
  phone : Option (List String)
  email : Option (List String)
  website : Option (List String)
deriving DecidableEq, Repr

structure MergedMeta where
  dateOverride : Option Nat
  formatLoad : String
  processedwAt : Nat
  version : String
deriving DecidableEq, Repr

structure Merged where
  id : String
  fullName : String
  type : String
  institution : MergedInstitution
  data : MergedData
  location : MergedLocation
  address : MergedAddress
  contact : MergedContact
  meta : MergedMeta
deriving DecidableEq, Repr

/-- `generateDoctorId`: the SHA-256 hex digest of
`` `${type}|${id_inst}|${doctor}` ``. -/
def dataString (type id_inst doctor : String) : String :=
  type ++ "|" ++ id_inst ++ "|" ++ doctor

def generateDoctorId (d : DoctorRaw) : String :=
  Sha256.hexDigest (dataString d.type d.id_inst d.doctor)

/-- `transformCommaSeparatedValues`: `'' ↦ null`, otherwise split on
commas and trim each piece. -/
def transformCommaSeparatedValues (v : String) : Option (List String) :=
  if v = "" then none else some ((jsSplit ',' v).map jsTrim)

/-- The `doctorsMergedSchema` transform applied to one
doctor/institution pair.  `now` stands for the `Date.now()` call that
fills `meta.processedwAt`. -/
def mergeOne (now : Nat) (doctor : DoctorRaw) (institution : InstitutionRaw) :
    Merged :=
  let location : MergedLocation :=
    { lat := if strTruthy doctor.lat then jsNumber doctor.lat
             else jsNumber institution.lat
      lon := if strTruthy doctor.lon then jsNumber doctor.lon
             else jsNumber institution.lon }
  let post := if doctor.post ≠ "" then doctor.post else institution.post
  let postParts := jsSplit ' ' post
  let address : MergedAddress :=
    { street := if doctor.address ≠ "" then doctor.address
                else institution.address
      city := if doctor.city ≠ "" then doctor.city else institution.city
      municipality := if doctor.municipality ≠ "" then doctor.municipality
                      else institution.municipality
      municipalityPart := if doctor.municipalityPart ≠ "" then
                            doctor.municipalityPart
                          else institution.municipalityPart
      postalCode := postParts.headD ""
      postalName := String.intercalate " " postParts.tail }
  let contact : MergedContact :=
    { phone := transformCommaSeparatedValues doctor.phone
      email := transformCommaSeparatedValues doctor.email
      website := transformCommaSeparatedValues doctor.website }
  { id := generateDoctorId doctor
    fullName := doctor.doctor
    type := doctor.type
    institution :=
      { id := institution.id_inst, name := institution.name,
        unit := institution.unit, zzzsSt := institution.zzzsSt }
    data :=
      { accepts := doctor.accepts_overide.getD doctor.accepts
        availability :=
          match doctor.availability_overide with
          | some s => .str s
          | none => .num doctor.availability
        load := doctor.load
        note := doctor.note_overide }
    location := location
    address := address
    contact := contact
    meta :=
      { dateOverride := doctor.date_overide
        formatLoad := if "den".isPrefixOf doctor.type ||
                         "gyn".isPrefixOf doctor.type then "percentage"
                      else "decimal"
        processedwAt := now
        version := "1.0" } }

/-- `new Map(institutions.map(inst => [inst.id_inst, inst]))`: a JS
`Map` built from an entry list keeps the last value written for a key,
so lookup finds the value of the last entry with that key. -/
def institutionsMapGet (institutions : List InstitutionRaw) (k : String) :
    Option InstitutionRaw :=
  (institutions.reverse.find? fun inst => inst.id_inst = k)

/-- `mergeDoctorsAndInstitutions` (`mergeHelper.ts`): map over the
doctors, resolving each doctor's institution in the lookup and falling
back to `unknownInstitution`.  (Re-parsing the already-validated records
through `institutionsRawSchema` / `doctorsRawSchema` is the identity on
schema outputs, which is what the record types here are.) -/
def mergeDoctorsAndInstitutions (now : Nat) (doctors : List DoctorRaw)
    (institutions : List InstitutionRaw) : List Merged :=
  doctors.map fun doctor =>
    mergeOne now doctor
      ((institutionsMapGet institutions doctor.id_inst).getD unknownInstitution)

/-! ## The TTL + size bounded cache (`cacheUtils.ts`)

A JS `Map` is modelled as an association list in insertion order:
`Map.prototype.set` updates an existing key in place (keeping its
position) and appends a new key; iteration (`[...cache.keys()][0]`)
follows that order.  The values stored in the generic caches are
modelled by `JsVal`, which records exactly what `getCacheWithTTL`
inspects: truthiness and the top-level property names that the
`isCachedData` type guard tests with `in`. -/

/-- A JS value as seen by the cache: a primitive with its truthiness,
or an object/array with its property names (objects are always
truthy). -/
inductive JsVal where
  | prim (truthy : Bool)
  | obj (keys : List String)
deriving DecidableEq, Repr

def jsValTruthy : JsVal → Bool
  | .prim t => t
  | .obj _ => true

/-- `isCachedData`: `typeof data === 'object' && data !== null &&
'timestamps' in data && 'meta' in data && 'data' in data`. -/
def isCachedData : JsVal → Bool
  | .prim _ => false
  | .obj keys =>
    keys.contains "timestamps" && keys.contains "meta" && keys.contains "data"

/-- JS `Map.prototype.get` (first — and under the no-duplicate-keys
invariant, only — entry with the key). -/
def jsMapGet {V : Type} (m : List (String × V)) (k : String) : Option V :=
  (m.find? fun p => p.1 = k).map Prod.snd

/-- JS `Map.prototype.set`: update in place when the key exists,
append otherwise. -/
def jsMapSet {V : Type} (m : List (String × V)) (k : String) (v : V) :
    List (String × V) :=
  if (jsMapGet m k).isSome then
    m.map fun p => if p.1 = k then (k, v) else p
  else m ++ [(k, v)]

/-- JS `Map.prototype.delete`. -/
def jsMapDelete {V : Type} (m : List (String × V)) (k : String) :
    List (String × V) :=
  m.filter fun p => p.1 ≠ k

/-- The keys of a JS `Map` are pairwise distinct. -/
def jsMapNodup {V : Type} (m : List (String × V)) : Prop :=
  (m.map Prod.fst).Nodup

def CACHE_TTL_MS : Nat := 10 * 60 * 1000

def MAX_CACHE_SIZE : Nat := 100

/-- `setCacheWithTTL(cache, key, value)`.  The expiry table is the
module-level `cacheExpiry` map, shared by every cache instance, and is
threaded explicitly; `now` stands for `Date.now()`.  Keys here are
strings, so `String(key) = key`. -/
def setCacheWithTTL (cache : List (String × JsVal))
    (expiry : List (String × Nat)) (now : Nat) (k : String) (v : JsVal) :
    List (String × JsVal) × List (String × Nat) :=
  let cache' := jsMapSet cache k v
  let expiry' := jsMapSet expiry k (now + CACHE_TTL_MS)
  if MAX_CACHE_SIZE < cache'.length then
    match cache'.head? with
    | some (oldestKey, _) =>
      (jsMapDelete cache' oldestKey, jsMapDelete expiry' oldestKey)
    | none => (cache', expiry')
  else (cache', expiry')

/-- `getCacheWithTTL(cache, key)`: returns the looked-up value together
with the updated cache and expiry maps (the expired branch deletes the
entry from both).  The expiry test is `expiry && expiry < Date.now()`:
a zero expiry is falsy and never counts as expired. -/
def getCacheWithTTL (cache : List (String × JsVal))
    (expiry : List (String × Nat)) (now : Nat) (k : String) :
    Option JsVal × List (String × JsVal) × List (String × Nat) :=
  let expired :=
    match jsMapGet expiry k with
    | some e => e ≠ 0 && e < now
    | none => false
  if expired then (none, jsMapDelete cache k, jsMapDelete expiry k)
  else
    match jsMapGet cache k with
    | some v =>
      if jsValTruthy v && isCachedData v then (some v, cache, expiry)
      else (none, cache, expiry)
    | none => (none, cache, expiry)

/-! ## The delimited-text parser (`fileHelper.ts` / `parseRawContent`)

`parseRawContent` feeds the whole content through a `csv-parse` parser
configured with `{ delimiter, columns: true }` and counts rows in the
`data` callback.  The `csv-parse` library itself is not part of this
repository; its record semantics are modelled from the spec: the first
record is the header whose fields become the keys of every subsequent
record, and a row whose column count differs from the header's is a
structural error that rejects the whole parse.  A row schema is a
function from the keyed record to `Option T` (`zodSchema.safeParse`). -/

structure ParseMeta where
  totalRows : Nat
  validRows : Nat
  invalidRows : Nat
  allValid : Bool
deriving DecidableEq, Repr

structure ParseResult (T : Type) where
  data : List T
  meta : ParseMeta
deriving DecidableEq, Repr

/-- Modelled from the spec: split the raw content into record lines
(one per newline; a trailing record delimiter produces no extra
record). -/
def toLines (content : String) : List String :=
  let ls := jsSplit '\n' content
  if ls.getLast? = some "" then ls.dropLast else ls

/-- Modelled from the spec: process the data rows one at a time.  A row
with the wrong column count is a hard structural failure that aborts
the parse; a row that fails schema validation is counted and dropped.
Returns (valid rows, total row count, invalid row count). -/
def processRows {T : Type} (schema : List (String × String) → Option T)
    (header : List String) : List (List String) →
    Except String (List T × Nat × Nat)
  | [] => .ok ([], 0, 0)
  | r :: rs =>
    if r.length = header.length then
      match processRows schema header rs with
      | .error e => .error e
      | .ok (vs, total, inv) =>
        match schema (header.zip r) with
        | some t => .ok (t :: vs, total + 1, inv)
        | none => .ok (vs, total + 1, inv + 1)
    else .error "Invalid Record Length"

/-- `parseRawContent(content, format, zodSchema)`: the tuple-style
error return `[error] | [undefined, result]` is an `Except`. -/
def parseRawContent {T : Type} (schema : List (String × String) → Option T)
    (delim : Char) (content : String) : Except String (ParseResult T) :=
  match toLines content with
  | [] => .ok ⟨[], ⟨0, 0, 0, true⟩⟩
  | header :: rows =>
    let h := jsSplit delim header
    (processRows schema h (rows.map (jsSplit delim))).map
      fun
      | (vs, total, inv) =>
        ⟨vs, ⟨total, vs.length, inv, inv = 0⟩⟩

/-! ## The doctors route cache-hit response (`doctorRoutes.ts`)

Only the piece C5 is about: how `meta.cacheHit` in the response is
built.  A stored `CachedData.meta` is modelled as the counts plus an
optional stored `cacheHit` property; the route's cache-hit branch
spreads the stored meta and then writes `cacheHit: true` after the
spread, and the fresh branch writes `cacheHit: false`. -/

structure StoredMeta where
  doctorsCount : Nat
  institutionsCount : Nat
  mergedCount : Nat
  executionTime : String
  cacheHit : Option Bool
deriving DecidableEq, Repr

structure ResponseMeta where
  doctorsCount : Nat
  institutionsCount : Nat
  mergedCount : Nat
  cacheHit : Bool
  executionTime : String
deriving DecidableEq, Repr

/-- The cache-hit branch of `router.get('/')`:
`{ ...cachedData.meta, cacheHit: true, executionTime: ... }` — the
explicit `cacheHit: true` written after the spread overrides any stored
`cacheHit`. -/
def cacheHitResponseMeta (stored : StoredMeta) (executionTime : String) :
    ResponseMeta :=
  { doctorsCount := stored.doctorsCount
    institutionsCount := stored.institutionsCount
    mergedCount := stored.mergedCount
    cacheHit := true
    executionTime := executionTime }

/-- The fresh-computation branch:
`{ ...responseData.meta, cacheHit: false, executionTime: ... }`. -/
def freshResponseMeta (stored : StoredMeta) (executionTime : String) :
    ResponseMeta :=
  { doctorsCount := stored.doctorsCount
    institutionsCount := stored.institutionsCount
    mergedCount := stored.mergedCount
    cacheHit := false
    executionTime := executionTime }

/-- The route's `meta.cacheHit` as a function of which branch served
the request: forced `true` on the cache-hit path, `false` on the fresh
path, never read from the stored entry. -/
def routeCacheHit (servedFromCache : Bool) (stored : StoredMeta)
    (executionTime : String) : ResponseMeta :=
  if servedFromCache then cacheHitResponseMeta stored executionTime
  else freshResponseMeta stored executionTime

/-! ## Association-list lemmas for the JS `Map` model -/

theorem jsMapGet_cons {V : Type} (p : String × V) (m : List (String × V))
    (k : String) :
    jsMapGet (p :: m) k = if p.1 = k then some p.2 else jsMapGet m k := by
  by_cases h : p.1 = k <;> simp [jsMapGet, List.find?_cons, h]

theorem jsMapGet_eq_none_iff {V : Type} (m : List (String × V)) (k : String) :
    jsMapGet m k = none ↔ ∀ p ∈ m, p.1 ≠ k := by
  induction m with
  | nil => simp [jsMapGet]
  | cons p m ih =>
    by_cases h : p.1 = k <;> simp [jsMapGet_cons, h, ih]

theorem jsMapGet_map_update_self {V : Type} (m : List (String × V))
    (k : String) (v : V) (h : (jsMapGet m k).isSome) :
    jsMapGet (m.map fun p => if p.1 = k then (k, v) else p) k = some v := by
  induction m with
  | nil => simp [jsMapGet] at h
  | cons p m ih =>
    by_cases hp : p.1 = k
    · simp [List.map_cons, hp, jsMapGet_cons]
    · simp only [jsMapGet_cons, hp, if_false] at h
      simpa [List.map_cons, hp, jsMapGet_cons] using ih h

theorem jsMapGet_map_update_ne {V : Type} (m : List (String × V))
    (k k' : String) (v : V) (hne : k' ≠ k) :
    jsMapGet (m.map fun p => if p.1 = k then (k, v) else p) k' =
      jsMapGet m k' := by
  induction m with
  | nil => simp
  | cons p m ih =>
    by_cases hp : p.1 = k
    · have h1 : p.1 ≠ k' := fun h' => hne (h'.symm.trans hp)
      simpa [List.map_cons, hp, jsMapGet_cons, Ne.symm hne, h1] using ih
    · by_cases hp' : p.1 = k'
      · simp [List.map_cons, hp, jsMapGet_cons, hp', hne]
      · simpa [List.map_cons, hp, jsMapGet_cons, hp'] using ih

theorem jsMapGet_append_single_self {V : Type} (m : List (String × V))
    (k : String) (v : V) (h : jsMapGet m k = none) :
    jsMapGet (m ++ [(k, v)]) k = some v := by
  induction m with
  | nil => simp [jsMapGet, List.find?]
  | cons p m ih =>
    by_cases hp : p.1 = k
    · simp [jsMapGet_cons, hp] at h
    · simp only [jsMapGet_cons, hp, if_false] at h
      simpa [List.cons_append, jsMapGet_cons, hp] using ih h

theorem jsMapGet_append_single_ne {V : Type} (m : List (String × V))
    (k k' : String) (v : V) (hne : k' ≠ k) :
    jsMapGet (m ++ [(k, v)]) k' = jsMapGet m k' := by
  induction m with
  | nil => simp [jsMapGet, List.find?, Ne.symm hne]
  | cons p m ih =>
    by_cases hp' : p.1 = k'
    · simp [List.cons_append, jsMapGet_cons, hp']
    · simpa [List.cons_append, jsMapGet_cons, hp'] using ih

theorem jsMapGet_set_self {V : Type} (m : List (String × V)) (k : String)
    (v : V) : jsMapGet (jsMapSet m k v) k = some v := by
  unfold jsMapSet
  by_cases h : (jsMapGet m k).isSome
  · simpa [h] using jsMapGet_map_update_self m k v h
  · have h0 : jsMapGet m k = none := by
      cases hg : jsMapGet m k with
      | none => rfl
      | some w => simp [hg] at h
    simpa [h] using jsMapGet_append_single_self m k v h0

theorem jsMapGet_set_ne {V : Type} (m : List (String × V)) (k k' : String)
    (v : V) (hne : k' ≠ k) : jsMapGet (jsMapSet m k v) k' = jsMapGet m k' := by
  unfold jsMapSet
  by_cases h : (jsMapGet m k).isSome
  · simpa [h] using jsMapGet_map_update_ne m k k' v hne
  · simpa [h] using jsMapGet_append_single_ne m k k' v hne

theorem jsMapGet_delete_self {V : Type} (m : List (String × V)) (k : String) :
    jsMapGet (jsMapDelete m k) k = none := by
  induction m with
  | nil => simp [jsMapDelete, jsMapGet]
  | cons p m ih =>
    by_cases hp : p.1 = k
    · simpa [jsMapDelete, List.filter_cons, hp] using ih
    · simpa [jsMapDelete, List.filter_cons, hp, jsMapGet_cons] using ih

theorem jsMapGet_delete_ne {V : Type} (m : List (String × V)) (k k' : String)
    (hne : k' ≠ k) : jsMapGet (jsMapDelete m k) k' = jsMapGet m k' := by
  induction m with
  | nil => simp [jsMapDelete]
  | cons p m ih =>
    by_cases hp : p.1 = k
    · simpa [jsMapDelete, List.filter_cons, hp, jsMapGet_cons, Ne.symm hne]
        using ih
    · by_cases hp' : p.1 = k'
      · simp [jsMapDelete, List.filter_cons, hp, jsMapGet_cons, hp', hne]
      · simpa [jsMapDelete, List.filter_cons, hp, jsMapGet_cons, hp'] using ih

theorem length_jsMapSet {V : Type} (m : List (String × V)) (k : String)
    (v : V) :
    (jsMapSet m k v).length =
      if (jsMapGet m k).isSome then m.length else m.length + 1 := by
  unfold jsMapSet
  by_cases h : (jsMapGet m k).isSome <;> simp [h]

/-- Deleting the head key of a duplicate-free map drops exactly the
head entry. -/
theorem jsMapDelete_head {V : Type} (p : String × V) (m : List (String × V))
    (hnd : jsMapNodup (p :: m)) : jsMapDelete (p :: m) p.1 = m := by
  have hp : p.1 ∉ m.map Prod.fst :=
    (List.nodup_cons.mp (by simpa [jsMapNodup] using hnd)).1
  have hall : ∀ q ∈ m, q.1 ≠ p.1 := by
    intro q hq h'
    exact hp (List.mem_map.mpr ⟨q, hq, h'⟩)
  unfold jsMapDelete
  rw [List.filter_cons_of_neg (by simp), List.filter_eq_self.mpr]
  intro a ha
  simpa using hall a ha

/-! ## Parser lemmas -/

/-- On rows of consistent width, `processRows` succeeds and returns
exactly the schema-valid rows, the total row count and the count of
schema-invalid rows. -/
theorem processRows_ok {T : Type} (schema : List (String × String) → Option T)
    (header : List String) (rs : List (List String))
    (hw : ∀ r ∈ rs, r.length = header.length) :
    processRows schema header rs =
      .ok (rs.filterMap (fun r => schema (header.zip r)), rs.length,
           (rs.filter fun r => (schema (header.zip r)).isNone).length) := by
  induction rs with
  | nil => rfl
  | cons r rs ih =>
    have hr := hw r (List.mem_cons_self r rs)
    have hrest := ih fun r' hr' => hw r' (List.mem_cons_of_mem r hr')
    cases hs : schema (header.zip r) with
    | some t =>
      simp [processRows, hr, hrest, hs, List.filterMap_cons, List.filter_cons]
    | none =>
      simp [processRows, hr, hrest, hs, List.filterMap_cons, List.filter_cons]

/-- A row of inconsistent width makes `processRows` fail as a whole. -/
theorem processRows_error {T : Type}
    (schema : List (String × String) → Option T) (header : List String)
    (rs : List (List String)) (r : List String) (hr : r ∈ rs)
    (hw : r.length ≠ header.length) :
    ∃ msg, processRows schema header rs = .error msg := by
  induction rs with
  | nil => cases hr
  | cons r' rs ih =>
    rcases List.mem_cons.mp hr with h | h
    · subst h
      exact ⟨"Invalid Record Length", by simp [processRows, hw]⟩
    · by_cases hw' : r'.length = header.length
      · obtain ⟨msg, hmsg⟩ := ih h
        exact ⟨msg, by simp [processRows, hw', hmsg]⟩
      · exact ⟨"Invalid Record Length", by simp [processRows, hw']⟩

/-- Counting lemma: valid plus invalid rows partition the input. -/
theorem length_filterMap_add_length_filter_isNone {α β : Type}
    (f : α → Option β) (l : List α) :
    (l.filterMap f).length + (l.filter fun a => (f a).isNone).length =
      l.length := by
  induction l with
  | nil => rfl
  | cons a l ih =>
    cases h : f a with
    | some b =>
      simpa [List.filterMap_cons, List.filter_cons, h,
        Nat.succ_add] using ih
    | none =>
      simpa [List.filterMap_cons, List.filter_cons, h,
        ← Nat.add_assoc] using ih

/-! ## Sample records used to instantiate the theorems -/

def sampleDoctor : DoctorRaw :=
  { accepts := "y", availability := 1, doctor := "Jane Novak",
    id_inst := "123", load := 1, type := "gp", email := "", phone := "",
    website := "", accepts_overide := none, availability_overide := none,
    date_overide := none, note_overide := none, address := "", city := "",
    municipality := "", municipalityPart := "", post := "", lat := none,
    lon := none }

/-! ## C1: the merge is total, order-preserving, one output per doctor -/

/-- C1: `mergeDoctorsAndInstitutions` returns exactly one merged record
per input doctor, in input order, and never fails: when a doctor's
`id_inst` has no entry in the institution lookup, the all-empty
placeholder institution is substituted instead of raising or dropping
the row. -/
theorem mergeDoctorsAndInstitutions_total (now : Nat)
    (doctors : List DoctorRaw) (institutions : List InstitutionRaw) :
    (mergeDoctorsAndInstitutions now doctors institutions).length =
        doctors.length ∧
    (∀ i (hi : i < doctors.length),
      (mergeDoctorsAndInstitutions now doctors institutions)[i]? =
        some (mergeOne now doctors[i]
          ((institutionsMapGet institutions doctors[i].id_inst).getD
            unknownInstitution))) ∧
    (∀ i (hi : i < doctors.length),
      institutionsMapGet institutions doctors[i].id_inst = none →
      (mergeDoctorsAndInstitutions now doctors institutions)[i]? =
        some (mergeOne now doctors[i] unknownInstitution)) ∧
    (unknownInstitution.id_inst = "" ∧ unknownInstitution.zzzsSt = "" ∧
     unknownInstitution.name = "" ∧ unknownInstitution.unit = "" ∧
     unknownInstitution.phone = "" ∧ unknownInstitution.website = "" ∧
     unknownInstitution.address = "" ∧ unknownInstitution.city = "" ∧
     unknownInstitution.municipality = "" ∧
     unknownInstitution.municipalityPart = "" ∧
     unknownInstitution.post = "" ∧ unknownInstitution.lat = some "" ∧
     unknownInstitution.lon = some "") := by
  refine ⟨by simp [mergeDoctorsAndInstitutions], ?_, ?_,
    by simp [unknownInstitution]⟩
  · intro i hi
    simp [mergeDoctorsAndInstitutions, List.getElem?_map,
      List.getElem?_eq_getElem hi]
  · intro i hi hnone
    simp [mergeDoctorsAndInstitutions, List.getElem?_map,
      List.getElem?_eq_getElem hi, hnone]

/-- C1 witness: one doctor, no institutions — the lookup misses and the
merge still produces one record built on the placeholder. -/
theorem mergeDoctorsAndInstitutions_total_witness :
    (mergeDoctorsAndInstitutions 0 [sampleDoctor] []).length = 1 ∧
    (mergeDoctorsAndInstitutions 0 [sampleDoctor] [])[0]? =
      some (mergeOne 0 sampleDoctor unknownInstitution) := by
  have h := mergeDoctorsAndInstitutions_total 0 [sampleDoctor] []
  exact ⟨h.1, h.2.2.1 0 (by decide) rfl⟩

/-! ## C5: `meta.cacheHit` is forced by the branch, never read back -/

/-- C5: a response served from the merged-result cache reports
`meta.cacheHit = true` regardless of any `cacheHit` stored in the
cached entry's meta, and a fresh computation reports
`meta.cacheHit = false`. -/
theorem routeCacheHit_forced (stored : StoredMeta) (t : String) :
    (routeCacheHit true stored t).cacheHit = true ∧
    (routeCacheHit false stored t).cacheHit = false := by
  simp [routeCacheHit, cacheHitResponseMeta, freshResponseMeta]

/-! ## C3: the merged location is chosen per coordinate, not per record -/

def c3Doctor : DoctorRaw :=
  { sampleDoctor with lat := some "1", lon := some "" }

def c3Institution : InstitutionRaw :=
  { unknownInstitution with lat := some "2", lon := some "3" }

def c3ScenarioDoctor : DoctorRaw :=
  { sampleDoctor with lat := some "", lon := some "" }

def c3ScenarioInstitution : InstitutionRaw :=
  { unknownInstitution with lat := some "46.05", lon := some "14.5" }

/-- C3 counterexample: a doctor whose `lat` is non-empty but whose
`lon` is empty.  "Both present and non-empty" fails, yet the merged
location does not use the institution's `lat`/`lon`: the transform
takes the doctor's `lat` and the institution's `lon`. -/
theorem mergeOne_location_claim_cex :
    (strTruthy c3Doctor.lat = true ∧ strTruthy c3Doctor.lon = false) ∧
    (mergeOne 0 c3Doctor c3Institution).location =
      { lat := .num 1, lon := .num 3 } ∧
    (mergeOne 0 c3Doctor c3Institution).location ≠
      { lat := jsNumber c3Institution.lat, lon := jsNumber c3Institution.lon } := by
  refine ⟨by decide, by decide, by decide⟩

/-- C3 amended: the merged location picks each coordinate
independently — `lat` is the doctor's `lat` converted to a number when
that string is non-empty and otherwise the institution's, and `lon`
likewise; in particular a doctor with empty `lat` and `lon` and an
institution with `lat = "46.05"`, `lon = "14.5"` yields
`location = {lat: 46.05, lon: 14.5}`. -/
theorem mergeOne_location_fieldwise (now : Nat) (d : DoctorRaw)
    (i : InstitutionRaw) :
    ((mergeOne now d i).location.lat =
       if strTruthy d.lat then jsNumber d.lat else jsNumber i.lat) ∧
    ((mergeOne now d i).location.lon =
       if strTruthy d.lon then jsNumber d.lon else jsNumber i.lon) ∧
    (d.lat = some "" → d.lon = some "" → i.lat = some "46.05" →
      i.lon = some "14.5" →
      (mergeOne now d i).location =
        { lat := .num (4605 / 100), lon := .num (145 / 10) }) := by
  refine ⟨rfl, rfl, ?_⟩
  intro h1 h2 h3 h4
  simp only [mergeOne, h1, h2, h3, h4]
  have hlat : jsNumber (some "46.05") = .num (4605 / 100) := by
    simp [jsNumber, jsTrim, jsIsWs, parseDec, parseUnsignedDec, digitsVal]
    norm_num
  have hlon : jsNumber (some "14.5") = .num (145 / 10) := by
    simp [jsNumber, jsTrim, jsIsWs, parseDec, parseUnsignedDec, digitsVal]
    norm_num
  simp [strTruthy, hlat, hlon]

/-- C3 witness: the spec scenario at concrete records. -/
theorem mergeOne_location_fieldwise_witness :
    (mergeOne 0 c3ScenarioDoctor c3ScenarioInstitution).location =
      { lat := .num (4605 / 100), lon := .num (145 / 10) } :=
  (mergeOne_location_fieldwise 0 c3ScenarioDoctor c3ScenarioInstitution).2.2
    rfl rfl rfl rfl

/-! ## C10: `accepts`/`availability` overrides are null-coalescing -/

def c10Doctor : DoctorRaw :=
  { sampleDoctor with
      accepts := "y"
      availability := 5
      accepts_overide := some ""
      availability_overide := some "20%" }

/-- C10: the merged `data.accepts` equals `accepts_overide` whenever it
is non-null — including the empty string — and the base `accepts`
otherwise; `data.availability` is the raw `availability_overide` string
(no numeric conversion) whenever non-null, else the numeric base
`availability`. -/
theorem mergeOne_override_nullish (now : Nat) (d : DoctorRaw)
    (i : InstitutionRaw) :
    (∀ s : String, d.accepts_overide = some s →
       (mergeOne now d i).data.accepts = s) ∧
    (d.accepts_overide = none →
       (mergeOne now d i).data.accepts = d.accepts) ∧
    (∀ s : String, d.availability_overide = some s →
       (mergeOne now d i).data.availability = .str s) ∧
    (d.availability_overide = none →
       (mergeOne now d i).data.availability = .num d.availability) := by
  refine ⟨?_, ?_, ?_, ?_⟩
  · intro s hs; simp [mergeOne, hs]
  · intro hs; simp [mergeOne, hs]
  · intro s hs; simp [mergeOne, hs]
  · intro hs; simp [mergeOne, hs]

/-- C10 witness: an empty-string `accepts_overide` wins over the base
value, and a string `availability_overide` is kept as a string. -/
theorem mergeOne_override_nullish_witness :
    (mergeOne 0 c10Doctor unknownInstitution).data.accepts = "" ∧
    (mergeOne 0 c10Doctor unknownInstitution).data.availability =
      .str "20%" :=
  ⟨(mergeOne_override_nullish 0 c10Doctor unknownInstitution).1 "" rfl,
   (mergeOne_override_nullish 0 c10Doctor unknownInstitution).2.2.1 "20%" rfl⟩

/-! ## C8: the derived id — deterministic, but the `|` delimiter is
not escaped, so distinct triples can collide with certainty -/

def c8DoctorA : DoctorRaw :=
  { sampleDoctor with type := "a|b", id_inst := "c", doctor := "d" }

def c8DoctorB : DoctorRaw :=
  { sampleDoctor with type := "a", id_inst := "b|c", doctor := "d" }

/-- C8 counterexample: two doctors with different
`(practiceType, institutionId, fullName)` triples whose `|`-joined
data strings coincide, so `generateDoctorId` returns the same id with
certainty — not merely with negligible probability. -/
theorem generateDoctorId_collision_cex :
    (c8DoctorA.type, c8DoctorA.id_inst, c8DoctorA.doctor) ≠
      (c8DoctorB.type, c8DoctorB.id_inst, c8DoctorB.doctor) ∧
    generateDoctorId c8DoctorA = generateDoctorId c8DoctorB := by
  refine ⟨by decide, ?_⟩
  show Sha256.hexDigest (dataString "a|b" "c" "d") =
    Sha256.hexDigest (dataString "a" "b|c" "d")
  exact congrArg Sha256.hexDigest (by decide)

/-- If two `a ++ '|' :: b` decompositions agree and neither prefix
contains `'|'`, the decompositions coincide. -/
theorem append_pipe_inj (a : List Char) :
    ∀ (a' b b' : List Char), '|' ∉ a → '|' ∉ a' →
      a ++ '|' :: b = a' ++ '|' :: b' → a = a' ∧ b = b' := by
  induction a with
  | nil =>
    intro a' b b' _ ha' h
    cases a' with
    | nil => simpa using h
    | cons y ys =>
      exfalso
      have hy : y = '|' := by
        have := congrArg List.head? h
        simpa using this.symm
      exact ha' (by simp [hy])
  | cons x xs ih =>
    intro a' b b' ha ha' h
    cases a' with
    | nil =>
      exfalso
      have hx : x = '|' := by
        have := congrArg List.head? h
        simpa using this
      exact ha (by simp [hx])
    | cons y ys =>
      have hxy : x = y := by
        have := congrArg List.head? h
        simpa using this
      have htl : xs ++ '|' :: b = ys ++ '|' :: b' := by
        have := congrArg List.tail h
        simpa using this
      have hxs : '|' ∉ xs := fun hm => ha (List.mem_cons_of_mem x hm)
      have hys : '|' ∉ ys := fun hm => ha' (List.mem_cons_of_mem y hm)
      obtain ⟨h1, h2⟩ := ih ys b b' hxs hys htl
      exact ⟨by rw [hxy, h1], h2⟩

/-- C8 amended: the id is a pure, deterministic function of the triple
`(practiceType, institutionId, fullName)` — the same triple always
yields the same id, whatever the other record fields are; the id
depends only on the `|`-joined data string, and that encoding
determines the triple uniquely only when the first two components are
`|`-free (triples whose joined strings coincide, possible because the
`|` delimiter is not escaped, collide with certainty). -/
theorem generateDoctorId_deterministic :
    (∀ d1 d2 : DoctorRaw, d1.type = d2.type → d1.id_inst = d2.id_inst →
      d1.doctor = d2.doctor → generateDoctorId d1 = generateDoctorId d2) ∧
    (∀ t1 i1 n1 t2 i2 n2 : String,
      '|' ∉ t1.toList → '|' ∉ t2.toList → '|' ∉ i1.toList →
      '|' ∉ i2.toList → dataString t1 i1 n1 = dataString t2 i2 n2 →
      t1 = t2 ∧ i1 = i2 ∧ n1 = n2) := by
  constructor
  · intro d1 d2 ht hi hd
    unfold generateDoctorId dataString
    rw [ht, hi, hd]
  · intro t1 i1 n1 t2 i2 n2 ht1 ht2 hi1 hi2 h
    have hdata : t1.data ++ '|' :: (i1.data ++ '|' :: n1.data) =
        t2.data ++ '|' :: (i2.data ++ '|' :: n2.data) := by
      have := congrArg String.data h
      simpa [dataString, String.data_append, List.append_assoc] using this
    have ht1' : '|' ∉ t1.data := by simpa [String.toList] using ht1
    have ht2' : '|' ∉ t2.data := by simpa [String.toList] using ht2
    obtain ⟨h1, h2⟩ := append_pipe_inj t1.data t2.data _ _ ht1' ht2' hdata
    have hi1' : '|' ∉ i1.data := by simpa [String.toList] using hi1
    have hi2' : '|' ∉ i2.data := by simpa [String.toList] using hi2
    obtain ⟨h3, h4⟩ := append_pipe_inj i1.data i2.data _ _ hi1' hi2' h2
    refine ⟨?_, ?_, ?_⟩
    · cases t1; cases t2; exact congrArg String.mk h1
    · cases i1; cases i2; exact congrArg String.mk h3
    · cases n1; cases n2; exact congrArg String.mk h4

/-- C8 witness: the same triple on records differing in another field
yields the same id, and a concrete `|`-free encoding determines its
triple. -/
theorem generateDoctorId_deterministic_witness :
    generateDoctorId sampleDoctor =
      generateDoctorId { sampleDoctor with accepts := "n" } ∧
    ("gp" = "gp" ∧ "123" = "123" ∧ "Jane Novak" = "Jane Novak") :=
  ⟨generateDoctorId_deterministic.1 sampleDoctor
      { sampleDoctor with accepts := "n" } rfl rfl rfl,
   generateDoctorId_deterministic.2 "gp" "123" "Jane Novak" "gp" "123"
      "Jane Novak" (by decide) (by decide) (by decide) (by decide) rfl⟩

/-! ## Cache behaviour lemmas -/

theorem jsValTruthy_of_isCachedData (v : JsVal) (h : isCachedData v = true) :
    jsValTruthy v = true := by
  cases v with
  | prim t => simp [isCachedData] at h
  | obj keys => rfl

/-- A live (unexpired) entry whose value passes the type guard is
returned unchanged. -/
theorem getCacheWithTTL_live (cache : List (String × JsVal))
    (expiry : List (String × Nat)) (now : Nat) (k : String) (v : JsVal)
    (e0 : Nat) (he : jsMapGet expiry k = some e0) (h0 : e0 ≠ 0)
    (hlt : ¬ e0 < now) (hc : jsMapGet cache k = some v)
    (hv : isCachedData v = true) :
    (getCacheWithTTL cache expiry now k).1 = some v := by
  have htr := jsValTruthy_of_isCachedData v hv
  simp [getCacheWithTTL, he, h0, hlt, hc, hv, htr]

/-- An expired entry is deleted from both the cache and the shared
expiry table, and the get reports a miss. -/
theorem getCacheWithTTL_expired (cache : List (String × JsVal))
    (expiry : List (String × Nat)) (now : Nat) (k : String) (e0 : Nat)
    (he : jsMapGet expiry k = some e0) (h0 : e0 ≠ 0) (hlt : e0 < now) :
    getCacheWithTTL cache expiry now k =
      (none, jsMapDelete cache k, jsMapDelete expiry k) := by
  simp [getCacheWithTTL, he, h0, hlt]

theorem jsMapNodup_set {V : Type} (m : List (String × V)) (k : String)
    (v : V) (hnd : jsMapNodup m) : jsMapNodup (jsMapSet m k v) := by
  unfold jsMapSet
  by_cases h : (jsMapGet m k).isSome
  · have hkeys : (m.map fun p => if p.1 = k then (k, v) else p).map Prod.fst =
        m.map Prod.fst := by
      rw [List.map_map]
      apply List.map_congr_left
      intro p _
      by_cases hp : p.1 = k <;> simp [hp]
    simpa [jsMapNodup, h, hkeys] using hnd
  · have hnone : jsMapGet m k = none := by
      cases hg : jsMapGet m k with
      | none => rfl
      | some w => simp [hg] at h
    have hk : ∀ p ∈ m, p.1 ≠ k := (jsMapGet_eq_none_iff m k).mp hnone
    have : k ∉ m.map Prod.fst := by
      intro hmem
      obtain ⟨p, hp, hpk⟩ := List.mem_map.mp hmem
      exact hk p hp hpk
    rw [if_neg (by simp [hnone])]
    simp only [jsMapNodup, List.map_append, List.map_cons, List.map_nil]
    exact List.Nodup.append hnd (List.nodup_singleton k)
      (by simpa [List.disjoint_singleton] using this)

/-- When the key is already present, `setCacheWithTTL` does not change
the cache size and (under the size invariant) does not evict. -/
theorem setCacheWithTTL_present (cache : List (String × JsVal))
    (expiry : List (String × Nat)) (now : Nat) (k : String) (v : JsVal)
    (hpres : (jsMapGet cache k).isSome)
    (hsz : cache.length ≤ MAX_CACHE_SIZE) :
    setCacheWithTTL cache expiry now k v =
      (jsMapSet cache k v, jsMapSet expiry k (now + CACHE_TTL_MS)) := by
  have hlen : (jsMapSet cache k v).length = cache.length := by
    rw [length_jsMapSet]; simp [hpres]
  have hno : ¬ MAX_CACHE_SIZE < (jsMapSet cache k v).length := by
    rw [hlen]; omega
  simp [setCacheWithTTL, hno]

/-- When the key is fresh and there is room, `setCacheWithTTL` appends
without evicting. -/
theorem setCacheWithTTL_fresh_room (cache : List (String × JsVal))
    (expiry : List (String × Nat)) (now : Nat) (k : String) (v : JsVal)
    (hsz : cache.length < MAX_CACHE_SIZE) :
    setCacheWithTTL cache expiry now k v =
      (jsMapSet cache k v, jsMapSet expiry k (now + CACHE_TTL_MS)) := by
  have hlen : (jsMapSet cache k v).length ≤ cache.length + 1 := by
    rw [length_jsMapSet]
    by_cases h : (jsMapGet cache k).isSome <;> simp [h]
  have hno : ¬ MAX_CACHE_SIZE < (jsMapSet cache k v).length := by omega
  simp [setCacheWithTTL, hno]

/-- When the key is fresh and the cache is exactly full, the insertion
overflows and the single oldest (head) entry is evicted; the evicted
key differs from the inserted one. -/
theorem setCacheWithTTL_fresh_full (cache : List (String × JsVal))
    (expiry : List (String × Nat)) (now : Nat) (k : String) (v : JsVal)
    (hnd : jsMapNodup cache) (hnone : jsMapGet cache k = none)
    (hsz : cache.length = MAX_CACHE_SIZE) :
    ∃ p rest, cache = p :: rest ∧ p.1 ≠ k ∧
      setCacheWithTTL cache expiry now k v =
        (rest ++ [(k, v)],
         jsMapDelete (jsMapSet expiry k (now + CACHE_TTL_MS)) p.1) := by
  have hM : MAX_CACHE_SIZE = 100 := rfl
  cases cache with
  | nil => simp [hM] at hsz
  | cons p rest =>
    refine ⟨p, rest, rfl, ?_, ?_⟩
    · exact fun h => by
        have := (jsMapGet_eq_none_iff (p :: rest) k).mp hnone p
          (List.mem_cons_self p rest)
        exact this h
    · have hmid : jsMapSet (p :: rest) k v = (p :: rest) ++ [(k, v)] := by
        unfold jsMapSet
        rw [if_neg (by simp [hnone])]
      have hmidlen : (jsMapSet (p :: rest) k v).length = MAX_CACHE_SIZE + 1 := by
        rw [hmid, List.length_append, hsz]
        rfl
      have hlt : MAX_CACHE_SIZE < (jsMapSet (p :: rest) k v).length := by
        omega
      have hndmid : jsMapNodup (jsMapSet (p :: rest) k v) :=
        jsMapNodup_set (p :: rest) k v hnd
      have hhead : (jsMapSet (p :: rest) k v).head? = some p := by
        rw [hmid]; rfl
      have hdel : jsMapDelete (jsMapSet (p :: rest) k v) p.1 =
          rest ++ [(k, v)] := by
        rw [hmid] at hndmid ⊢
        exact jsMapDelete_head p (rest ++ [(k, v)]) hndmid
      simp only [setCacheWithTTL, hlt, if_true, hhead]
      rw [hdel]

/-! ## C2: the immediate set/get round trip -/

def c2ArrayVal : JsVal := JsVal.obj []

def c2CachedVal : JsVal := JsVal.obj ["timestamps", "meta", "data"]

/-- C2 counterexample: a stored value without the
`timestamps`/`meta`/`data` properties (for instance the parsed-row
arrays that `fetchAndParseWithCache` stores) fails the `isCachedData`
type guard inside `getCacheWithTTL`, so an immediate get after the set
returns absent, not the stored value. -/
theorem setThenGet_roundtrip_cex :
    (getCacheWithTTL (setCacheWithTTL [] [] 1000 "k" c2ArrayVal).1
       (setCacheWithTTL [] [] 1000 "k" c2ArrayVal).2 1000 "k").1 = none ∧
    (none : Option JsVal) ≠ some c2ArrayVal := by
  exact ⟨by decide, by decide⟩

/-- C2 amended: for a cache with duplicate-free keys holding at most
the maximum entry count, and a value that passes the `isCachedData`
type guard (an object with `timestamps`, `meta` and `data` keys),
`setCacheWithTTL` followed immediately by `getCacheWithTTL` (same
clock) returns the stored value; values failing the guard are reported
absent even immediately after the set. -/
theorem setThenGet_roundtrip (cache : List (String × JsVal))
    (expiry : List (String × Nat)) (now : Nat) (k : String) (v : JsVal)
    (hnd : jsMapNodup cache) (hsz : cache.length ≤ MAX_CACHE_SIZE)
    (hv : isCachedData v = true) :
    (getCacheWithTTL (setCacheWithTTL cache expiry now k v).1
       (setCacheWithTTL cache expiry now k v).2 now k).1 = some v := by
  have hTTL : CACHE_TTL_MS = 600000 := rfl
  have hne0 : now + CACHE_TTL_MS ≠ 0 := by omega
  have hnlt : ¬ now + CACHE_TTL_MS < now := by omega
  by_cases hpres : (jsMapGet cache k).isSome
  · rw [setCacheWithTTL_present cache expiry now k v hpres hsz]
    exact getCacheWithTTL_live _ _ now k v _ (jsMapGet_set_self expiry k _)
      hne0 hnlt (jsMapGet_set_self cache k v) hv
  · have hnone : jsMapGet cache k = none := by
      cases hg : jsMapGet cache k with
      | none => rfl
      | some w => simp [hg] at hpres
    by_cases hfull : cache.length = MAX_CACHE_SIZE
    · obtain ⟨p, rest, hcache, hpk, hset⟩ :=
        setCacheWithTTL_fresh_full cache expiry now k v hnd hnone hfull
      rw [hset]
      have hrest : jsMapGet rest k = none := by
        rw [jsMapGet_eq_none_iff]
        intro q hq
        exact (jsMapGet_eq_none_iff cache k).mp hnone q
          (hcache ▸ List.mem_cons_of_mem p hq)
      refine getCacheWithTTL_live _ _ now k v (now + CACHE_TTL_MS) ?_ hne0
        hnlt ?_ hv
      · rw [jsMapGet_delete_ne _ p.1 k fun h => hpk h.symm]
        exact jsMapGet_set_self expiry k _
      · exact jsMapGet_append_single_self rest k v hrest
    · have hlt : cache.length < MAX_CACHE_SIZE :=
        Nat.lt_of_le_of_ne hsz hfull
      rw [setCacheWithTTL_fresh_room cache expiry now k v hlt]
      exact getCacheWithTTL_live _ _ now k v _ (jsMapGet_set_self expiry k _)
        hne0 hnlt (jsMapGet_set_self cache k v) hv

/-- C2 witness: an empty cache, a guard-passing value, same clock. -/
theorem setThenGet_roundtrip_witness :
    (getCacheWithTTL (setCacheWithTTL [] [] 1000 "k" c2CachedVal).1
       (setCacheWithTTL [] [] 1000 "k" c2CachedVal).2 1000 "k").1 =
      some c2CachedVal :=
  setThenGet_roundtrip [] [] 1000 "k" c2CachedVal (by simp [jsMapNodup])
    (by decide) (by decide)

/-! ## C6: size bound and FIFO eviction -/

/-- C6: starting from a duplicate-free cache within the size limit,
`setCacheWithTTL` leaves at most `MAX_CACHE_SIZE` (100) entries; when
the insertion made the size exceed the limit, exactly the single
oldest-inserted entry (the head in insertion order) is evicted and
everything else is kept; otherwise nothing is evicted.  The resulting
cache contents are independent of the expiry table, i.e. of the
entries' TTL expiry times. -/
theorem setCacheWithTTL_size_fifo (cache : List (String × JsVal))
    (expiry : List (String × Nat)) (now : Nat) (k : String) (v : JsVal)
    (hnd : jsMapNodup cache) (hsz : cache.length ≤ MAX_CACHE_SIZE) :
    ((setCacheWithTTL cache expiry now k v).1.length ≤ MAX_CACHE_SIZE) ∧
    (MAX_CACHE_SIZE < (jsMapSet cache k v).length →
      (setCacheWithTTL cache expiry now k v).1 = (jsMapSet cache k v).tail) ∧
    ((jsMapSet cache k v).length ≤ MAX_CACHE_SIZE →
      (setCacheWithTTL cache expiry now k v).1 = jsMapSet cache k v) ∧
    (∀ e1 e2 : List (String × Nat),
      (setCacheWithTTL cache e1 now k v).1 =
        (setCacheWithTTL cache e2 now k v).1) := by
  have hexp : ∀ e1 e2 : List (String × Nat),
      (setCacheWithTTL cache e1 now k v).1 =
        (setCacheWithTTL cache e2 now k v).1 := by
    intro e1 e2
    unfold setCacheWithTTL
    by_cases h : MAX_CACHE_SIZE < (jsMapSet cache k v).length
    · cases hh : (jsMapSet cache k v).head? <;> simp [h, hh]
    · simp [h]
  by_cases hover : MAX_CACHE_SIZE < (jsMapSet cache k v).length
  · have hpres : ¬ (jsMapGet cache k).isSome := by
      intro hp
      have := length_jsMapSet cache k v
      rw [if_pos hp] at this
      omega
    have hnone : jsMapGet cache k = none := by
      cases hg : jsMapGet cache k with
      | none => rfl
      | some w => simp [hg] at hpres
    have hfull : cache.length = MAX_CACHE_SIZE := by
      have := length_jsMapSet cache k v
      rw [if_neg hpres] at this
      omega
    obtain ⟨p, rest, hcache, hpk, hset⟩ :=
      setCacheWithTTL_fresh_full cache expiry now k v hnd hnone hfull
    have hmid : jsMapSet cache k v = cache ++ [(k, v)] := by
      unfold jsMapSet
      rw [if_neg (by simp [hnone])]
    refine ⟨?_, fun _ => ?_, fun hle => absurd hle (by omega), hexp⟩
    · rw [hset]
      have : rest.length + 1 = MAX_CACHE_SIZE := by
        have := congrArg List.length hcache
        simp at this
        omega
      simp [List.length_append]
      omega
    · rw [hset, hmid, hcache]
      rfl
  · have hset := hexp expiry expiry
    have heq : (setCacheWithTTL cache expiry now k v).1 =
        jsMapSet cache k v := by
      unfold setCacheWithTTL
      simp [hover]
    exact ⟨by rw [heq]; omega, fun h => absurd h hover, fun _ => heq, hexp⟩

/-- A 100-entry cache with distinct keys, for exercising eviction. -/
def fullCache : List (String × JsVal) :=
  (List.range 100).map fun i => (toString i, JsVal.obj [])

/-- C6 witness: inserting a fresh key into a full 100-entry cache stays
at the bound and evicts exactly the oldest entry. -/
theorem setCacheWithTTL_size_fifo_witness :
    (setCacheWithTTL fullCache [] 5 "x" c2CachedVal).1.length ≤
      MAX_CACHE_SIZE ∧
    (setCacheWithTTL fullCache [] 5 "x" c2CachedVal).1 =
      (jsMapSet fullCache "x" c2CachedVal).tail := by
  have h := setCacheWithTTL_size_fifo fullCache [] 5 "x" c2CachedVal
    (by unfold jsMapNodup; decide) (by decide)
  exact ⟨h.1, h.2.1 (by decide)⟩

/-! ## C9: the expiry table is global and shared across cache maps -/

def c9StoredVal : JsVal := JsVal.obj ["timestamps", "meta", "data", "x"]

/-- C9: all cache instances share the single module-level `cacheExpiry`
table keyed by the stringified key.  A `setCacheWithTTL(c2, k, v)` call
at time `t2` resets the one expiry consulted by any later
`getCacheWithTTL(c1, k)` to `t2 + CACHE_TTL_MS`; consequently `c1`'s
entry for `k` is still served at a time `t` past its own insertion-time
TTL (`t1 + CACHE_TTL_MS < t`) as long as `t ≤ t2 + CACHE_TTL_MS`, and
once `t2 + CACHE_TTL_MS < t` a get on `c1` deletes `c1`'s entry based
on the expiry written for `c2`. -/
theorem cacheExpiry_shared (c2 : List (String × JsVal))
    (e : List (String × Nat)) (t2 : Nat) (k : String) (v w : JsVal)
    (hsz : c2.length ≤ MAX_CACHE_SIZE) (hmem : jsMapGet c2 k = some w) :
    jsMapGet (setCacheWithTTL c2 e t2 k v).2 k = some (t2 + CACHE_TTL_MS) ∧
    (∀ (c1 : List (String × JsVal)) (v1 : JsVal) (t1 t : Nat),
      jsMapGet c1 k = some v1 → isCachedData v1 = true →
      t1 + CACHE_TTL_MS < t → t ≤ t2 + CACHE_TTL_MS →
      (getCacheWithTTL c1 (setCacheWithTTL c2 e t2 k v).2 t k).1 = some v1) ∧
    (∀ (c1 : List (String × JsVal)) (t : Nat), t2 + CACHE_TTL_MS < t →
      getCacheWithTTL c1 (setCacheWithTTL c2 e t2 k v).2 t k =
        (none, jsMapDelete c1 k,
         jsMapDelete (setCacheWithTTL c2 e t2 k v).2 k)) := by
  have hTTL : CACHE_TTL_MS = 600000 := rfl
  have hpres : (jsMapGet c2 k).isSome := by simp [hmem]
  rw [setCacheWithTTL_present c2 e t2 k v hpres hsz]
  have hek : jsMapGet (jsMapSet e k (t2 + CACHE_TTL_MS)) k =
      some (t2 + CACHE_TTL_MS) := jsMapGet_set_self e k _
  refine ⟨hek, ?_, ?_⟩
  · intro c1 v1 t1 t hc1 hv1 ht1 hle
    exact getCacheWithTTL_live c1 _ t k v1 _ hek (by omega) (by omega) hc1 hv1
  · intro c1 t hgt
    exact getCacheWithTTL_expired c1 _ t k _ hek (by omega) hgt

/-- C9 witness: `c1`'s entry inserted at `t1 = 1` is still served at
`t = 600005` (past `t1 + TTL`) because `c2`'s set at `t2 = 10` reset
the shared expiry, and at `t = 700000` the get deletes `c1`'s entry. -/
theorem cacheExpiry_shared_witness :
    (getCacheWithTTL [("k", c2CachedVal)]
       (setCacheWithTTL [("k", c9StoredVal)] [("k", 1 + CACHE_TTL_MS)] 10
         "k" c9StoredVal).2 600005 "k").1 = some c2CachedVal ∧
    getCacheWithTTL [("k", c2CachedVal)]
       (setCacheWithTTL [("k", c9StoredVal)] [("k", 1 + CACHE_TTL_MS)] 10
         "k" c9StoredVal).2 700000 "k" =
      (none, jsMapDelete [("k", c2CachedVal)] "k",
       jsMapDelete (setCacheWithTTL [("k", c9StoredVal)]
         [("k", 1 + CACHE_TTL_MS)] 10 "k" c9StoredVal).2 "k") := by
  have h := cacheExpiry_shared [("k", c9StoredVal)] [("k", 1 + CACHE_TTL_MS)]
    10 "k" c9StoredVal c9StoredVal (by decide) (by decide)
  exact ⟨h.2.1 [("k", c2CachedVal)] c2CachedVal 1 600005 (by decide)
      (by decide) (by decide) (by decide),
    h.2.2 [("k", c2CachedVal)] 700000 (by decide)⟩

/-- On consistent-width rows the parse succeeds, with the
schema-valid rows as `data` and the row counts in `meta`. -/
theorem parseRawContent_ok_of_widths {T : Type}
    (schema : List (String × String) → Option T) (delim : Char)
    (content : String) (header : String) (rows : List String)
    (hsplit : toLines content = header :: rows)
    (hw : ∀ r ∈ rows, (jsSplit delim r).length = (jsSplit delim header).length) :
    parseRawContent schema delim content = .ok
      ⟨(rows.map (jsSplit delim)).filterMap
         (fun r => schema ((jsSplit delim header).zip r)),
       ⟨rows.length,
        ((rows.map (jsSplit delim)).filterMap
           (fun r => schema ((jsSplit delim header).zip r))).length,
        ((rows.map (jsSplit delim)).filter
           (fun r => (schema ((jsSplit delim header).zip r)).isNone)).length,
        decide ((((rows.map (jsSplit delim)).filter
           (fun r => (schema ((jsSplit delim header).zip r)).isNone)).length)
          = 0)⟩⟩ := by
  have hw' : ∀ r ∈ rows.map (jsSplit delim),
      r.length = (jsSplit delim header).length := by
    intro r hr
    obtain ⟨r0, hr0, rfl⟩ := List.mem_map.mp hr
    exact hw r0 hr0
  have hok := processRows_ok schema (jsSplit delim header)
    (rows.map (jsSplit delim)) hw'
  simp [parseRawContent, hsplit, hok, Except.map]

/-! ## C4: structural failures are hard, schema failures are soft -/

/-- C4: a data row whose column count differs from the header's makes
`parseRawContent` fail as a whole (an error, no partial data), while
rows of the right width that fail schema validation are merely dropped
from `data` and counted in `invalidRows`, the parse continuing to a
successful result. -/
theorem parseRawContent_structural_vs_schema {T : Type}
    (schema : List (String × String) → Option T) (delim : Char)
    (content : String) (header : String) (rows : List String)
    (hsplit : toLines content = header :: rows) :
    ((∃ r ∈ rows, (jsSplit delim r).length ≠ (jsSplit delim header).length) →
      ∃ msg, parseRawContent schema delim content = .error msg) ∧
    ((∀ r ∈ rows, (jsSplit delim r).length = (jsSplit delim header).length) →
      parseRawContent schema delim content = .ok
        ⟨(rows.map (jsSplit delim)).filterMap
           (fun r => schema ((jsSplit delim header).zip r)),
         ⟨rows.length,
          ((rows.map (jsSplit delim)).filterMap
             (fun r => schema ((jsSplit delim header).zip r))).length,
          ((rows.map (jsSplit delim)).filter
             (fun r => (schema ((jsSplit delim header).zip r)).isNone)).length,
          decide ((((rows.map (jsSplit delim)).filter
             (fun r => (schema ((jsSplit delim header).zip r)).isNone)).length)
            = 0)⟩⟩) := by
  constructor
  · rintro ⟨r, hr, hw⟩
    obtain ⟨msg, hmsg⟩ := processRows_error schema (jsSplit delim header)
      (rows.map (jsSplit delim)) (jsSplit delim r)
      (List.mem_map.mpr ⟨r, hr, rfl⟩) hw
    refine ⟨msg, ?_⟩
    simp [parseRawContent, hsplit, hmsg, Except.map]
  · exact parseRawContent_ok_of_widths schema delim content header rows
      hsplit

/-- A concrete row schema used by the parser witnesses: `id` and `name`
are taken verbatim, `age` must be a non-blank numeric string (as a
`z.coerce.number()`-like field rejecting blanks). -/
def sampleRowSchema (rec : List (String × String)) :
    Option (String × String × ℚ) :=
  match jsMapGet rec "id", jsMapGet rec "name", jsMapGet rec "age" with
  | some i, some n, some a =>
    if jsTrim a = "" then none
    else
      match jsNumber (some a) with
      | .num q => some (i, n, q)
      | .nan => none
  | _, _, _ => none

/-- C4 witness: `1,John` against a 3-column header fails the whole
parse; a right-width row with a non-numeric `age` is dropped and
counted while the parse succeeds. -/
theorem parseRawContent_structural_vs_schema_witness :
    (∃ msg, parseRawContent sampleRowSchema ','
      "id,name,age\n1,John\n2,Jane,25" = .error msg) ∧
    parseRawContent sampleRowSchema ','
      "id,name,age\n1,John,30\n2,Jane,abc" =
      .ok ⟨[("1", "John", 30)], ⟨2, 1, 1, false⟩⟩ := by
  constructor
  · exact (parseRawContent_structural_vs_schema sampleRowSchema ','
      "id,name,age\n1,John\n2,Jane,25" "id,name,age" ["1,John", "2,Jane,25"]
      (by decide)).1 ⟨"1,John", by decide, by decide⟩
  · have h := (parseRawContent_structural_vs_schema sampleRowSchema ','
      "id,name,age\n1,John,30\n2,Jane,abc" "id,name,age"
      ["1,John,30", "2,Jane,abc"] (by decide)).2 (by decide)
    rw [h]
    exact congrArg Except.ok (by decide)

/-! ## C7: row accounting -/

/-- C7: for a header plus data rows of consistent width, the parse
succeeds with `totalRows` equal to the number of data rows and
`validRows + invalidRows` equal to it as well; when every row passes
the schema, `allValid = true` and `data` has exactly one entry per
row. -/
theorem parseRawContent_counts {T : Type}
    (schema : List (String × String) → Option T) (delim : Char)
    (content : String) (header : String) (rows : List String)
    (hsplit : toLines content = header :: rows)
    (hw : ∀ r ∈ rows, (jsSplit delim r).length = (jsSplit delim header).length) :
    ∃ res, parseRawContent schema delim content = .ok res ∧
      res.meta.totalRows = rows.length ∧
      res.meta.validRows + res.meta.invalidRows = rows.length ∧
      ((∀ r ∈ rows,
          (schema ((jsSplit delim header).zip (jsSplit delim r))).isSome) →
        res.meta.allValid = true ∧ res.data.length = rows.length) := by
  have hcount := length_filterMap_add_length_filter_isNone
    (fun r => schema ((jsSplit delim header).zip r)) (rows.map (jsSplit delim))
  refine ⟨_, parseRawContent_ok_of_widths schema delim content header rows
    hsplit hw, rfl, ?_, ?_⟩
  · simpa using hcount
  · intro hall
    have hnil : (rows.map (jsSplit delim)).filter
        (fun r => (schema ((jsSplit delim header).zip r)).isNone) = [] := by
      rw [List.filter_eq_nil_iff]
      intro r hr
      obtain ⟨r0, hr0, rfl⟩ := List.mem_map.mp hr
      obtain ⟨x, hx⟩ := Option.isSome_iff_exists.mp (hall r0 hr0)
      simp [hx]
    constructor
    · simp [hnil]
    · have h2 := hcount
      rw [hnil] at h2
      simpa using h2

/-- C7 witness: the spec's three-row scenario, all rows valid
(including the `age = " -5"` row). -/
theorem parseRawContent_counts_witness :
    ∃ res, parseRawContent sampleRowSchema ','
        "id,name,age\n1,John,30\n2,Jane,25\n3,Mary, -5" = .ok res ∧
      res.meta.totalRows = 3 ∧
      res.meta.validRows + res.meta.invalidRows = 3 ∧
      res.meta.allValid = true ∧ res.data.length = 3 := by
  obtain ⟨res, h1, h2, h3, h4⟩ := parseRawContent_counts sampleRowSchema ','
    "id,name,age\n1,John,30\n2,Jane,25\n3,Mary, -5" "id,name,age"
    ["1,John,30", "2,Jane,25", "3,Mary, -5"] (by decide) (by decide)
  obtain ⟨h5, h6⟩ := h4 (by decide)
  exact ⟨res, h1, h2, h3, h5, h6⟩

end ZzsData
